import Mathlib

/-!
Shallow embedding of the `cirby` reconciliation pipeline
(`internal/cirby/cirby.go`): config scanning, the git safety gate, merge
content construction, symlink target computation and the `Run` orchestrator.

Modelling conventions:
* Go strings are modelled as `List Char` (`Str`); byte-level UTF-8 details
  are not needed by any claim.
* Filesystem paths are modelled as lists of path components (`Path`),
  i.e. the slash-separated segments of a clean relative Go path; symlink
  targets, which Go stores as raw strings, are modelled as `Str` and split
  on `'/'` when resolved.
* The filesystem is an association list from paths to entries (regular
  file with content, or symlink with a raw-string target); directories are
  implicit.  The first binding for a path wins on lookup.
* `git` subprocess results are modelled by a `GitEnv` record (whether the
  tree is a repository, and the raw `git status --porcelain` output).
* SHA-256 hashing (`hashContent`) is modelled as the identity encoding:
  the code uses hash equality only as a proxy for content equality, and
  collision-freeness of SHA-256 is assumed.
-/

namespace Cirby

/-- Go strings, modelled as lists of characters. -/
abbrev Str := List Char

/-- Paths as lists of slash-separated components of a clean relative path. -/
abbrev Path := List Str

/-- Whitespace predicate of Go's `unicode.IsSpace`, used by `strings.TrimSpace`:
the Latin-1 cases plus the Unicode `White_Space` code points. -/
def goIsSpace (c : Char) : Bool :=
  decide (c = ' ' ∨ c = '\t' ∨ c = '\n' ∨ c = '\x0b' ∨ c = '\x0c' ∨ c = '\r' ∨
    c.toNat = 0x85 ∨ c.toNat = 0xA0 ∨ c.toNat = 0x1680 ∨
    (0x2000 ≤ c.toNat ∧ c.toNat ≤ 0x200A) ∨
    c.toNat = 0x2028 ∨ c.toNat = 0x2029 ∨ c.toNat = 0x202F ∨
    c.toNat = 0x205F ∨ c.toNat = 0x3000)

/-- Left part of Go's `strings.TrimSpace`: drop leading whitespace. -/
def ltrim (s : Str) : Str := s.dropWhile goIsSpace

/-- Right part of Go's `strings.TrimSpace`: drop trailing whitespace. -/
def rtrim (s : Str) : Str := (s.reverse.dropWhile goIsSpace).reverse

/-- Go's `strings.TrimSpace`. -/
def trimSpace (s : Str) : Str := rtrim (ltrim s)

/-- Go's `strings.Split(s, "\n")`. -/
def splitNl : Str → List Str
  | [] => [[]]
  | '\n' :: rest => [] :: splitNl rest
  | c :: rest =>
    match splitNl rest with
    | [] => [[c]]
    | h :: t => (c :: h) :: t

/-- Split a raw path string into its slash-separated components
(used to interpret a symlink target string). -/
def splitSlash : Str → Path
  | [] => [[]]
  | '/' :: rest => [] :: splitSlash rest
  | c :: rest =>
    match splitSlash rest with
    | [] => [[c]]
    | h :: t => (c :: h) :: t

/-- Go's `filepath.Base` on a raw path string: strip trailing slashes, then
keep everything after the final slash; `"."` for the empty path and `"/"`
for an all-slash path. -/
def stringBase (s : Str) : Str :=
  if s = [] then ".".data
  else
    let s1 := (s.reverse.dropWhile (fun c => decide (c = '/'))).reverse
    if s1 = [] then "/".data
    else (s1.reverse.takeWhile (fun c => decide (c ≠ '/'))).reverse

/-- Join path components with `'/'`, recovering the raw Go path string. -/
def pathStr (p : Path) : Str := List.intercalate "/".data p

/-- Lexicographic strict order on strings (Go's `<` on `string`). -/
def strLt : Str → Str → Bool
  | [], [] => false
  | [], _ :: _ => true
  | _ :: _, [] => false
  | a :: as, b :: bs => decide (a < b) || (decide (a = b) && strLt as bs)

/-- Filesystem entries: regular files with content, or symlinks with a raw
target string.  Directories are implicit. -/
inductive FSEntry where
  | file (content : Str)
  | symlink (target : Str)
deriving DecidableEq

/-- The working tree: an association list from paths to entries; the first
binding for a path wins. -/
abbrev FS := List (Path × FSEntry)

/-- Association-list lookup of a path in the tree. -/
def lookupFS : FS → Path → Option FSEntry
  | [], _ => none
  | (q, e) :: rest, p => if q = p then some e else lookupFS rest p

/-- Go's `filepath.Dir` on a component path: all but the final component;
the empty list stands for `"."`. -/
def pathDir (p : Path) : Path := p.dropLast

/-- Strip the longest common component segments of two paths (the core of
Go's `filepath.Rel`). -/
def dropCommon : Path → Path → Path × Path
  | [], t => ([], t)
  | b :: bs, [] => (b :: bs, [])
  | b :: bs, t :: ts => if b = t then dropCommon bs ts else (b :: bs, t :: ts)

/-- Literal `".."` path component. -/
def dotdot : Str := "..".data

/-- Go's `filepath.Rel(base, targ)` for clean relative paths: one `".."`
component for every remaining base component after the common prefix has
been removed, then the remaining target components.  The empty result
stands for `"."`. -/
def filepathRel (base targ : Path) : Path :=
  List.replicate (dropCommon base targ).1.length dotdot ++ (dropCommon base targ).2

/-- Resolve a relative component path against a directory, interpreting
`".."` components; other components are appended. -/
def resolvePath : Path → Path → Path
  | base, [] => base
  | base, c :: rest =>
    if c = dotdot then resolvePath base.dropLast rest
    else resolvePath (base ++ [c]) rest

/-- Canonical file name `"AGENTS.md"`. -/
def agentsName : Str := "AGENTS.md".data

/-- Path of the canonical file at the project root. -/
def agentsMDPath : Path := [agentsName]

/-- Pure core of `createSymlink`: the target written into the new symlink.
Files directly at the project root link with the bare canonical filename;
nested files use `filepath.Rel(dir, "AGENTS.md")`. -/
def createSymlinkTarget (p : Path) : Path :=
  if pathDir p = [] then [agentsName] else filepathRel (pathDir p) [agentsName]

/-- Remove a path from the tree (Go `os.Remove`; removing an absent path is
tolerated, as in `createSymlink`). -/
def removeFS (fs : FS) (p : Path) : FS := fs.filter (fun e => decide (e.1 ≠ p))

/-- Write a regular file (Go `os.WriteFile`), replacing any previous entry. -/
def writeFS (fs : FS) (p : Path) (c : Str) : FS := (p, .file c) :: removeFS fs p

/-- Effect of `createSymlink cfg.Path`: remove the original file and create
a symlink whose raw target string is the computed relative target. -/
def createSymlinkFS (fs : FS) (p : Path) : FS :=
  (p, .symlink (pathStr (createSymlinkTarget p))) :: removeFS fs p

/-- Go `os.ReadFile`: regular files yield their content; a symlink is
followed one level, resolving its target relative to the file's directory. -/
def readFileFS (fs : FS) (p : Path) : Option Str :=
  match lookupFS fs p with
  | some (.file c) => some c
  | some (.symlink t) =>
    match lookupFS fs (resolvePath (pathDir p) (splitSlash t)) with
    | some (.file c) => some c
    | _ => none
  | none => none

/-- A discovered agent configuration file (`AgentConfig` in the source). -/
structure AgentConfig where
  path : Path
  agent : Str
  content : Str
  strategy : Str
deriving DecidableEq

/-- One entry of the static agent registry (`agentPatterns` in the source):
an agent name, its glob patterns (as component paths), and its strategy. -/
structure AgentPattern where
  name : Str
  patterns : List Path
  strategy : Str
deriving DecidableEq

/-- The `"merge"` strategy tag. -/
def mergeStr : Str := "merge".data

/-- The `"symlink"` strategy tag. -/
def symlinkStr : Str := "symlink".data

/-- The `"keep"` strategy tag. -/
def keepStr : Str := "keep".data

/-- The static agent registry, from the `agentPatterns` variable of the
source.  Each glob pattern is written as its slash-separated components. -/
def agentPatterns : List AgentPattern :=
  [ ⟨"Claude Code".data, [["CLAUDE.md".data], ["**".data, "CLAUDE.md".data]], symlinkStr⟩,
    ⟨"Cursor (legacy)".data, [[".cursorrules".data]], symlinkStr⟩,
    ⟨"Cursor (rules)".data, [[".cursor".data, "rules".data, "*.mdc".data]], mergeStr⟩,
    ⟨"Windsurf".data, [[".windsurfrules".data]], symlinkStr⟩,
    ⟨"GitHub Copilot".data, [[".github".data, "copilot-instructions.md".data]], symlinkStr⟩,
    ⟨"Gemini CLI".data, [["GEMINI.md".data]], symlinkStr⟩,
    ⟨"Codex".data, [["CODEX.md".data]], mergeStr⟩,
    ⟨"OpenCode/AMP".data, [["AGENTS.md".data]], keepStr⟩ ]

/-- Helper for the `'*'` wildcard: test a predicate on a string and all of
its suffixes (structural recursion, so that the matcher kernel-reduces). -/
def orSuffixes (f : Str → Bool) : Str → Bool
  | [] => f []
  | c :: cs => f (c :: cs) || orSuffixes f cs

/-- Single-component matcher of Go's `path.Match` restricted to the syntax
the registry uses: literal characters, `'?'` and `'*'` (which never matches
a separator — components contain none).  Character classes are not used by
any registry pattern and are omitted. -/
def matchComp : Str → Str → Bool
  | [], s => s.isEmpty
  | '*' :: ps, s => orSuffixes (fun t => matchComp ps t) s
  | '?' :: _, [] => false
  | '?' :: ps, _ :: cs => matchComp ps cs
  | _ :: _, [] => false
  | p :: ps, c :: cs => decide (p = c) && matchComp ps cs

/-- Component-wise glob match of a pattern against a path: same number of
components, each matched by `matchComp` (Go's `filepath.Match`). -/
def matchPath : Path → Path → Bool
  | [], [] => true
  | a :: as, b :: bs => matchComp a b && matchPath as bs
  | _, _ => false

/-- Go's `filepath.Glob` over the modelled tree: the paths present in the
tree that match the pattern.  Ordering is irrelevant here because
`scanConfigs` sorts the final list by path. -/
def glob (fs : FS) (pat : Path) : List Path :=
  (fs.map Prod.fst).filter (fun p => matchPath pat p)

/-- Symlink check of the source's `isSymlinkToAgentsMD`: the path must be a
symlink (by `Lstat`) whose readlink target is exactly `"AGENTS.md"` or has
basename `"AGENTS.md"`. -/
def isSymlinkToAgentsMD (fs : FS) (p : Path) : Bool :=
  match lookupFS fs p with
  | some (.symlink t) => decide (t = agentsName ∨ stringBase t = agentsName)
  | _ => false

/-- Body of the per-match loop of `scanConfigs`: skip symlinks to the
canonical file, skip unreadable files, otherwise emit the config record
tagged with the registry entry's agent name and strategy. -/
def mkConfig (fs : FS) (ap : AgentPattern) (p : Path) : Option AgentConfig :=
  if isSymlinkToAgentsMD fs p then none
  else
    match readFileFS fs p with
    | some content => some ⟨p, ap.name, content, ap.strategy⟩
    | none => none

/-- Configs gathered in registry order, before the final sort. -/
def scanRaw (fs : FS) : List AgentConfig :=
  agentPatterns.flatMap fun ap =>
    ap.patterns.flatMap fun pat => (glob fs pat).filterMap (mkConfig fs ap)

/-- Insert a config into a list sorted by path (ascending). -/
def insertSorted (cfg : AgentConfig) : List AgentConfig → List AgentConfig
  | [] => [cfg]
  | c :: cs =>
    if strLt (pathStr cfg.path) (pathStr c.path) then cfg :: c :: cs
    else c :: insertSorted cfg cs

/-- Sort configs by path, the source's `sort.Slice` on `configs[i].Path`. -/
def sortConfigs : List AgentConfig → List AgentConfig
  | [] => []
  | c :: cs => insertSorted c (sortConfigs cs)

/-- The source's `scanConfigs`: glob every registry pattern, skip symlinks
to the canonical file and unreadable files, sort the result by path. -/
def scanConfigs (fs : FS) : List AgentConfig := sortConfigs (scanRaw fs)

/-- Result of the `git` subprocess calls made by `checkGitStatus`: whether
the tree is inside a git repository, and the raw porcelain status output. -/
structure GitEnv where
  isRepo : Bool
  porcelain : Str

/-- The source's `isAgentConfigFile`: basename in the fixed list, or a path
ending in `".mdc"` that contains `".cursor/rules/"`. -/
def isAgentConfigFile (path : Str) : Bool :=
  decide (stringBase path ∈
      ["CLAUDE.md".data, "AGENTS.md".data, "CODEX.md".data, "GEMINI.md".data,
       ".cursorrules".data, ".windsurfrules".data, "copilot-instructions.md".data]) ||
  (decide (".mdc".data <:+ path) && decide (".cursor/rules/".data <:+: path))

/-- Body of the porcelain-line loop of `checkGitStatus`: lines shorter than
three characters are skipped; otherwise the status columns are dropped, the
file name trimmed, and kept when it is a recognized agent-config file. -/
def uncommittedOf (porcelain : Str) : List Str :=
  (splitNl porcelain).filterMap fun line =>
    if line.length < 3 then none
    else if isAgentConfigFile (trimSpace (line.drop 3)) then
      some (trimSpace (line.drop 3))
    else none

/-- The source's `checkGitStatus`, with the subprocess results supplied by
a `GitEnv`.  `none` means the check passed (or was skipped because the tree
is not a repository); `some files` is the fatal error enumerating the
recognized agent-config files with uncommitted changes. -/
def checkGitStatus (env : GitEnv) : Option (List Str) :=
  if !env.isRepo then none
  else if env.porcelain = [] then none
  else if uncommittedOf env.porcelain = [] then none
  else some (uncommittedOf env.porcelain)

/-- Provenance header of a merged section, from `buildMergedContent`. -/
def mergeHeader (path agent : Str) : Str :=
  "\n\n---\n\n<!-- Merged from ".data ++ path ++ " (".data ++ agent ++ ") -->\n\n".data

/-- A delimited merged section: provenance header plus trimmed content. -/
def mergeSection (cfg : AgentConfig) : Str :=
  mergeHeader (pathStr cfg.path) cfg.agent ++ trimSpace cfg.content

/-- Skip condition of the merge loop in `buildMergedContent`: the existing
canonical content is non-empty and already contains the config's trimmed
content as a substring (`strings.Contains`). -/
def mergeSkip (existing : Str) (cfg : AgentConfig) : Prop :=
  existing ≠ [] ∧ trimSpace cfg.content <:+: existing

instance (existing : Str) (cfg : AgentConfig) : Decidable (mergeSkip existing cfg) :=
  inferInstanceAs (Decidable (existing ≠ [] ∧ trimSpace cfg.content <:+: existing))

/-- Parts contributed by the merge-strategy configs in `buildMergedContent`. -/
def mergeParts (existing : Str) (toMerge : List AgentConfig) : List Str :=
  toMerge.filterMap fun cfg =>
    if mergeSkip existing cfg then none else some (mergeSection cfg)

/-- Seed section built from the first symlink-strategy config when no
canonical content existed. -/
def seedSection (base : AgentConfig) : Str :=
  "# AGENTS.md\n\n".data ++ trimSpace base.content

/-- Parts contributed by the symlink-strategy configs in
`buildMergedContent`: only when no canonical content existed, seed from the
first config and append every other whose trimmed content differs. -/
def symParts (existing : Str) : List AgentConfig → List Str
  | [] => []
  | base :: rest =>
    if existing = [] then
      seedSection base ::
        rest.filterMap fun cfg =>
          if trimSpace cfg.content = trimSpace base.content then none
          else some (mergeSection cfg)
    else []

/-- All parts accumulated by `buildMergedContent` before the final join:
the trimmed existing content (when non-empty), then the merge-strategy
sections, then the symlink-strategy seeding sections. -/
def buildParts (existing : Str) (toMerge toSymlink : List AgentConfig) : List Str :=
  (if existing = [] then [] else [trimSpace existing]) ++
    mergeParts existing toMerge ++ symParts existing toSymlink

/-- Fixed minimal template emitted when no content was assembled. -/
def minimalTemplate : Str :=
  ("# AGENTS.md\n\nThis file provides guidance to AI coding agents working with " ++
   "this project.\n\n## Project Overview\n\n<!-- Add your project description " ++
   "here -->\n\n## Build & Test\n\n<!-- Add build and test commands here " ++
   "-->\n\n## Code Style\n\n<!-- Add code style guidelines here -->\n").data

/-- The source's `buildMergedContent` (its `opts` argument only controls
verbose printing and is dropped): join all parts, trim, append one newline;
fall back to the minimal template when no parts were assembled. -/
def buildMergedContent (existing : Str) (toMerge toSymlink : List AgentConfig) : Str :=
  let parts := buildParts existing toMerge toSymlink
  if parts = [] then minimalTemplate
  else trimSpace parts.flatten ++ ['\n']

/-- The source's `hashContent`.  SHA-256 is modelled as the identity
encoding: the code compares hashes only as a proxy for content equality,
and collision-freeness is assumed. -/
def hashContent (content : Str) : Str := content

/-- CLI options (`Options` in the source). -/
structure Options where
  dryRun : Bool
  force : Bool
  verbose : Bool
deriving DecidableEq

/-- Terminal outcome of `Run`: the git-gate error, the "no configuration
files found" outcome, the "already in sync, nothing to do" outcome, the
dry-run outcome, or the applied outcome. -/
inductive RunStatus where
  | gitError (files : List Str)
  | noConfigs
  | inSync
  | dryRunDone
  | applied
deriving DecidableEq

/-- Result of a `Run`: final outcome, final tree, and the lists of file
writes, removals and symlink creations it performed. -/
structure RunResult where
  status : RunStatus
  fs : FS
  writes : List Path
  removed : List Path
  symlinked : List Path
deriving DecidableEq

/-- Existing canonical content read by `Run`: the content of `AGENTS.md`
when it is readable, the empty string otherwise. -/
def existingOf (fs : FS) : Str := (readFileFS fs agentsMDPath).getD []

/-- Partition step of `Run`: the discovered merge-strategy configs. -/
def toMergeOf (fs : FS) : List AgentConfig :=
  (scanConfigs fs).filter fun cfg => decide (cfg.strategy = mergeStr)

/-- Partition step of `Run`: the discovered symlink-strategy configs not
already symlinked to the canonical file (the loop re-checks
`isSymlinkToAgentsMD` even though `scanConfigs` already skipped those). -/
def toSymlinkOf (fs : FS) : List AgentConfig :=
  (scanConfigs fs).filter fun cfg =>
    decide (cfg.strategy = symlinkStr) && !isSymlinkToAgentsMD fs cfg.path

/-- Merged canonical content computed by `Run`. -/
def mergedOf (fs : FS) : Str :=
  buildMergedContent (existingOf fs) (toMergeOf fs) (toSymlinkOf fs)

/-- Symlink-creation loop of `Run`: returns the final tree, the removed
paths and the created symlink paths (in loop order). -/
def applySymlinks (fs : FS) : List AgentConfig → FS × List Path × List Path
  | [] => (fs, [], [])
  | cfg :: rest =>
    let step := applySymlinks (createSymlinkFS fs cfg.path) rest
    (step.1, cfg.path :: step.2.1, cfg.path :: step.2.2)

/-- Mutation phase of `Run` in apply mode: write `AGENTS.md` when the
merged content changed, then create the pending symlinks. -/
def applyChanges (fs : FS) : RunResult :=
  let wr : List Path := if mergedOf fs ≠ existingOf fs then [agentsMDPath] else []
  let fs1 := if mergedOf fs ≠ existingOf fs then writeFS fs agentsMDPath (mergedOf fs) else fs
  let step := applySymlinks fs1 (toSymlinkOf fs)
  ⟨.applied, step.1, wr, step.2.1, step.2.2⟩

/-- Post-gate phase of `Run`: scan, no-config fast path, "already in sync"
fast path (hash equality and no pending symlink), dry-run fast path, then
apply the mutations. -/
def runAfterGate (opts : Options) (fs : FS) : RunResult :=
  if scanConfigs fs = [] then ⟨.noConfigs, fs, [], [], []⟩
  else if existingOf fs ≠ [] ∧
      hashContent (existingOf fs) = hashContent (mergedOf fs) ∧
      toSymlinkOf fs = [] then
    ⟨.inSync, fs, [], [], []⟩
  else if opts.dryRun then ⟨.dryRunDone, fs, [], [], []⟩
  else applyChanges fs

/-- The source's `Run`: git gate (unless `--force`), then the scan, merge
and mutation phases of `runAfterGate`. -/
def Run (opts : Options) (env : GitEnv) (fs : FS) : RunResult :=
  match (if opts.force then none else checkGitStatus env) with
  | some files => ⟨.gitError files, fs, [], [], []⟩
  | none => runAfterGate opts fs

/-! Helper lemmas about trimming. -/

/-- Whenever `dropWhile` leaves a non-empty list, its head fails the predicate. -/
lemma dropWhile_eq_cons_head {α : Type} {p : α → Bool} {l : List α} {a : α} {t : List α}
    (h : l.dropWhile p = a :: t) : p a = false := by
  induction l with
  | nil => simp [List.dropWhile] at h
  | cons x xs ih =>
    rw [List.dropWhile_cons] at h
    split at h
    · exact ih h
    · next hx => cases h; simpa using hx

/-- Repeated `dropWhile` is a no-op. -/
lemma dropWhile_idem {α : Type} (p : α → Bool) (l : List α) :
    (l.dropWhile p).dropWhile p = l.dropWhile p := by
  cases hd : l.dropWhile p with
  | nil => rfl
  | cons a t => exact List.dropWhile_cons_of_neg (by simp [dropWhile_eq_cons_head hd])

/-- Right trimming shortens a string from the right only. -/
lemma rtrim_pre (s : Str) : rtrim s <+: s := by
  obtain ⟨w, hw⟩ := List.dropWhile_suffix (l := s.reverse) goIsSpace
  exact ⟨w.reverse, by simpa [rtrim, List.reverse_append] using congrArg List.reverse hw⟩

/-- Right trimming is idempotent. -/
lemma rtrim_rtrim (s : Str) : rtrim (rtrim s) = rtrim s := by
  unfold rtrim
  rw [List.reverse_reverse, dropWhile_idem]

/-- A trimmed string has no leading whitespace left to drop. -/
lemma ltrim_trimSpace (s : Str) : ltrim (trimSpace s) = trimSpace s := by
  unfold trimSpace
  cases hr : rtrim (ltrim s) with
  | nil => rfl
  | cons b u =>
    obtain ⟨w, hw⟩ : rtrim (ltrim s) <+: ltrim s := rtrim_pre (ltrim s)
    rw [hr] at hw
    have hxcons : s.dropWhile goIsSpace = b :: (u ++ w) := by
      have : ltrim s = b :: (u ++ w) := by rw [← hw]; simp
      simpa [ltrim] using this
    exact List.dropWhile_cons_of_neg (by simp [dropWhile_eq_cons_head hxcons])

/-- A trimmed string has no trailing whitespace left to drop. -/
lemma rtrim_trimSpace (s : Str) : rtrim (trimSpace s) = trimSpace s :=
  rtrim_rtrim (ltrim s)

/-- Trimming is idempotent. -/
lemma trimSpace_idem (s : Str) : trimSpace (trimSpace s) = trimSpace s := by
  calc trimSpace (trimSpace s) = rtrim (ltrim (trimSpace s)) := rfl
    _ = rtrim (trimSpace s) := by rw [ltrim_trimSpace]
    _ = trimSpace s := rtrim_trimSpace s

/-- Trimming a string that starts with an already-trimmed non-empty block
keeps that block intact as a prefix. -/
lemma trimSpace_append (E B : Str) (hne : trimSpace E ≠ []) :
    ∃ C, trimSpace (trimSpace E ++ B) = trimSpace E ++ C := by
  obtain ⟨a, t, hat⟩ : ∃ a t, trimSpace E = a :: t := by
    cases h : trimSpace E with
    | nil => exact absurd h hne
    | cons a t => exact ⟨a, t, rfl⟩
  have ha : goIsSpace a = false := by
    have h1 := ltrim_trimSpace E
    rw [hat] at h1
    simpa [ltrim] using h1
  have hl : ltrim (trimSpace E ++ B) = trimSpace E ++ B := by
    rw [hat]
    simp only [List.cons_append, ltrim]
    exact List.dropWhile_cons_of_neg (by simp [ha])
  have hlast : List.dropWhile goIsSpace (trimSpace E).reverse = (trimSpace E).reverse := by
    have h2 := rtrim_trimSpace E
    have h3 := congrArg List.reverse h2
    simpa [rtrim] using h3
  have hmain : trimSpace (trimSpace E ++ B) =
      (List.dropWhile goIsSpace (B.reverse ++ (trimSpace E).reverse)).reverse := by
    show rtrim (ltrim (trimSpace E ++ B)) = _
    rw [hl]
    unfold rtrim
    rw [List.reverse_append]
  rw [hmain, List.dropWhile_append]
  cases hB : B.reverse.dropWhile goIsSpace with
  | nil => exact ⟨[], by simp [hlast]⟩
  | cons d ds => exact ⟨(d :: ds).reverse, by simp [hlast, List.reverse_append]⟩

/-! Helper lemmas about the filesystem model and scanning. -/

/-- A successful lookup means the path is bound in the tree. -/
lemma lookupFS_mem {fs : FS} {p : Path} {e : FSEntry} (h : lookupFS fs p = some e) :
    p ∈ fs.map Prod.fst := by
  induction fs with
  | nil => simp [lookupFS] at h
  | cons b rest ih =>
    obtain ⟨q, e2⟩ := b
    rw [lookupFS] at h
    split at h
    · next hq =>
      subst hq
      rw [List.map_cons]
      exact List.mem_cons_self _ _
    · rw [List.map_cons]
      exact List.mem_cons_of_mem _ (ih h)

/-- Membership in an insertion step. -/
lemma mem_insertSorted {cfg x : AgentConfig} {l : List AgentConfig} :
    x ∈ insertSorted cfg l ↔ x = cfg ∨ x ∈ l := by
  induction l with
  | nil => simp [insertSorted]
  | cons c cs ih =>
    rw [insertSorted]
    split
    · simp
    · rw [List.mem_cons, ih, List.mem_cons]
      tauto

/-- Sorting by path preserves membership. -/
lemma mem_sortConfigs {x : AgentConfig} {l : List AgentConfig} :
    x ∈ sortConfigs l ↔ x ∈ l := by
  induction l with
  | nil => simp [sortConfigs]
  | cons c cs ih => simp [sortConfigs, mem_insertSorted, ih]

/-- Shape of a config emitted by the scan loop body. -/
lemma mkConfig_some {fs : FS} {ap : AgentPattern} {p : Path} {cfg : AgentConfig}
    (h : mkConfig fs ap p = some cfg) :
    cfg.path = p ∧ cfg.agent = ap.name ∧ cfg.strategy = ap.strategy ∧
      isSymlinkToAgentsMD fs p = false ∧ readFileFS fs p = some cfg.content := by
  rw [mkConfig] at h
  split at h
  · simp at h
  · next hns =>
    split at h
    · next content hc =>
      cases h
      exact ⟨rfl, rfl, rfl, by simpa using hns, hc⟩
    · simp at h

/-- Characterisation of the discovered configs: each comes from a registry
entry, one of its glob patterns, and a surviving match. -/
lemma mem_scanConfigs_iff {fs : FS} {cfg : AgentConfig} :
    cfg ∈ scanConfigs fs ↔
      ∃ ap ∈ agentPatterns, ∃ pat ∈ ap.patterns, ∃ p ∈ glob fs pat,
        mkConfig fs ap p = some cfg := by
  unfold scanConfigs scanRaw
  rw [mem_sortConfigs]
  simp only [List.mem_flatMap, List.mem_filterMap]

/-- The symlink-creation loop removes exactly the listed config paths. -/
lemma applySymlinks_removed (l : List AgentConfig) :
    ∀ fs : FS, (applySymlinks fs l).2.1 = l.map (fun cfg => cfg.path) := by
  induction l with
  | nil => intro fs; rfl
  | cons c cs ih => intro fs; simp [applySymlinks, ih]

/-- The symlink-creation loop creates exactly the listed config paths. -/
lemma applySymlinks_created (l : List AgentConfig) :
    ∀ fs : FS, (applySymlinks fs l).2.2 = l.map (fun cfg => cfg.path) := by
  induction l with
  | nil => intro fs; rfl
  | cons c cs ih => intro fs; simp [applySymlinks, ih]

/-- Unfolding `Run` when the gate reports an error. -/
lemma run_gate_some {opts : Options} {env : GitEnv} (fs : FS) {files : List Str}
    (hg : (if opts.force then none else checkGitStatus env) = some files) :
    Run opts env fs = ⟨.gitError files, fs, [], [], []⟩ := by
  unfold Run
  rw [hg]

/-- Unfolding `Run` when the gate passes. -/
lemma run_gate_none {opts : Options} {env : GitEnv} (fs : FS)
    (hg : (if opts.force then none else checkGitStatus env) = none) :
    Run opts env fs = runAfterGate opts fs := by
  unfold Run
  rw [hg]

/-- Facts about a git-gate failure: the reported file list is non-empty and
contains only recognized agent-config files. -/
lemma checkGitStatus_some {env : GitEnv} {files : List Str}
    (h : checkGitStatus env = some files) :
    files ≠ [] ∧ ∀ f ∈ files, isAgentConfigFile f = true := by
  rw [checkGitStatus] at h
  split at h
  · simp at h
  · split at h
    · simp at h
    · split at h
      · simp at h
      · next hne =>
        cases h
        refine ⟨hne, fun f hf => ?_⟩
        obtain ⟨line, _, hline⟩ := List.mem_filterMap.mp hf
        split at hline
        · simp at hline
        · split at hline
          · next hcfg => cases hline; exact hcfg
          · simp at hline

/-- Skipping the gate silently when the tree is not under version control. -/
lemma checkGitStatus_not_repo {env : GitEnv} (h : env.isRepo = false) :
    checkGitStatus env = none := by
  rw [checkGitStatus, if_pos (by simp [h])]

/-- The merged content is never the empty string. -/
lemma buildMergedContent_ne_nil (existing : Str) (toMerge toSymlink : List AgentConfig) :
    buildMergedContent existing toMerge toSymlink ≠ [] := by
  rw [buildMergedContent]
  split
  · decide
  · simp

/-- Pending symlink-strategy configs carry the `"symlink"` strategy and are
not yet symlinked to the canonical file. -/
lemma mem_toSymlinkOf {fs : FS} {cfg : AgentConfig} (h : cfg ∈ toSymlinkOf fs) :
    cfg ∈ scanConfigs fs ∧ cfg.strategy = symlinkStr ∧
      isSymlinkToAgentsMD fs cfg.path = false := by
  obtain ⟨hmem, hp⟩ := List.mem_filter.mp h
  simp only [Bool.and_eq_true, decide_eq_true_eq, Bool.not_eq_true'] at hp
  exact ⟨hmem, hp.1, hp.2⟩

/-- If every glob match of every symlink-strategy registry pattern is
already a symlink to the canonical file, nothing is pending. -/
lemma toSymlinkOf_eq_nil {fs : FS}
    (hsym : ∀ ap ∈ agentPatterns, ap.strategy = symlinkStr →
      ∀ pat ∈ ap.patterns, ∀ p ∈ glob fs pat, isSymlinkToAgentsMD fs p = true) :
    toSymlinkOf fs = [] := by
  rw [toSymlinkOf, List.filter_eq_nil_iff]
  intro cfg hc
  simp only [Bool.and_eq_true, decide_eq_true_eq, Bool.not_eq_true', not_and]
  intro hstrat
  obtain ⟨ap, hap, pat, hpat, p, hp, hmk⟩ := mem_scanConfigs_iff.mp hc
  obtain ⟨hpath, _, hs, hns, _⟩ := mkConfig_some hmk
  have hsy := hsym ap hap (by rw [← hs]; exact hstrat) pat hpat p hp
  rw [← hpath] at hsy
  simp [hsy]

/-! Helper lemmas about relative-path computation. -/

/-- Stripping the common segments decomposes both paths over a shared head. -/
lemma dropCommon_spec :
    ∀ (b t b2 t2 : Path), dropCommon b t = (b2, t2) → ∃ c, b = c ++ b2 ∧ t = c ++ t2 := by
  intro b
  induction b with
  | nil =>
    intro t b2 t2 h
    rw [dropCommon] at h
    cases h
    exact ⟨[], rfl, rfl⟩
  | cons x bs ih =>
    intro t b2 t2 h
    cases t with
    | nil =>
      rw [dropCommon] at h
      cases h
      exact ⟨[], rfl, rfl⟩
    | cons y ts =>
      rw [dropCommon] at h
      split at h
      · next hxy =>
        obtain ⟨c, hb, ht⟩ := ih ts b2 t2 h
        exact ⟨x :: c, by rw [hb]; rfl, by rw [hxy, ht]; rfl⟩
      · cases h
        exact ⟨[], rfl, rfl⟩

/-- Each leading `".."` component cancels one trailing base component. -/
lemma resolvePath_app_dots (b : Path) :
    ∀ (c rest : Path),
      resolvePath (c ++ b) (List.replicate b.length dotdot ++ rest) = resolvePath c rest := by
  induction b using List.reverseRecOn with
  | nil => intro c rest; simp
  | append_singleton bs x ih =>
    intro c rest
    have hrep : List.replicate (bs ++ [x]).length dotdot ++ rest =
        dotdot :: (List.replicate bs.length dotdot ++ rest) := by
      rw [List.length_append, List.length_singleton, List.replicate_succ, List.cons_append]
    rw [hrep, resolvePath, if_pos rfl]
    have hdl : (c ++ (bs ++ [x])).dropLast = c ++ bs := by
      rw [← List.append_assoc]
      exact List.dropLast_concat
    rw [hdl]
    exact ih c rest

/-- Resolution of a dot-free relative path is plain concatenation. -/
lemma resolvePath_no_dots :
    ∀ (t c : Path), (∀ x ∈ t, x ≠ dotdot) → resolvePath c t = c ++ t := by
  intro t
  induction t with
  | nil => intro c _; simp [resolvePath]
  | cons y ts ih =>
    intro c h
    rw [resolvePath, if_neg (h y (List.mem_cons_self _ _))]
    rw [ih (c ++ [y]) (fun x hx => h x (List.mem_cons_of_mem _ hx))]
    simp

/-! Claim theorems. -/

/-- C6: for every non-empty existing canonical content, the string returned
by `buildMergedContent` has the whitespace-trimmed existing content as a
prefix, hence contains it as a substring: merging never deletes previously
merged material. -/
theorem merged_superset (existing : Str) (toMerge toSymlink : List AgentConfig)
    (h : existing ≠ []) :
    trimSpace existing <+: buildMergedContent existing toMerge toSymlink ∧
    trimSpace existing <:+: buildMergedContent existing toMerge toSymlink := by
  have hparts : buildParts existing toMerge toSymlink =
      trimSpace existing ::
        (mergeParts existing toMerge ++ symParts existing toSymlink) := by
    rw [buildParts, if_neg h]
    rfl
  have hres : buildMergedContent existing toMerge toSymlink =
      trimSpace (trimSpace existing ++
        (mergeParts existing toMerge ++ symParts existing toSymlink).flatten) ++ ['\n'] := by
    rw [buildMergedContent, if_neg (by rw [hparts]; simp), hparts]
    rfl
  by_cases hte : trimSpace existing = []
  · constructor
    · rw [hte]
      exact List.nil_prefix
    · rw [hte]
      exact ⟨[], buildMergedContent existing toMerge toSymlink, by simp⟩
  · obtain ⟨C, hC⟩ := trimSpace_append existing
      ((mergeParts existing toMerge ++ symParts existing toSymlink).flatten) hte
    have heq : buildMergedContent existing toMerge toSymlink =
        trimSpace existing ++ (C ++ ['\n']) := by
      rw [hres, hC, List.append_assoc]
    exact ⟨⟨C ++ ['\n'], heq.symm⟩, ⟨[], C ++ ['\n'], by rw [heq]; rfl⟩⟩

/-- Witness for C6 at a concrete input. -/
theorem merged_superset_witness :
    ("hi\n".data ≠ []) ∧
      trimSpace "hi\n".data <+: buildMergedContent "hi\n".data [] [] ∧
      trimSpace "hi\n".data <:+: buildMergedContent "hi\n".data [] [] :=
  ⟨by decide, merged_superset "hi\n".data [] [] (by decide)⟩

set_option maxRecDepth 8000 in
/-- C8: for every input triple, the merged content — including the minimal
template — is an already-trimmed core followed by exactly one newline. -/
theorem output_normalized (existing : Str) (toMerge toSymlink : List AgentConfig) :
    ∃ core, buildMergedContent existing toMerge toSymlink = core ++ ['\n'] ∧
      trimSpace core = core := by
  rw [buildMergedContent]
  split
  · exact ⟨minimalTemplate.dropLast, by decide, by decide⟩
  · exact ⟨trimSpace (buildParts existing toMerge toSymlink).flatten, rfl, trimSpace_idem _⟩

/-- C4: a merge-strategy config whose trimmed content is already a
substring of the existing canonical content contributes nothing to the
merged output; one whose trimmed content is not such a substring is
appended as a delimited section with its provenance header. -/
theorem merge_dedup (existing : Str) (pre post toSymlink : List AgentConfig)
    (cfg : AgentConfig) :
    (mergeSkip existing cfg →
      buildMergedContent existing (pre ++ cfg :: post) toSymlink =
        buildMergedContent existing (pre ++ post) toSymlink) ∧
    (¬ mergeSkip existing cfg →
      mergeSection cfg ∈ mergeParts existing (pre ++ cfg :: post)) := by
  constructor
  · intro h
    have hf : (fun c => if mergeSkip existing c then none
        else some (mergeSection c)) cfg = none := if_pos h
    have hmp : mergeParts existing (pre ++ cfg :: post) =
        mergeParts existing (pre ++ post) := by
      unfold mergeParts
      rw [List.filterMap_append, List.filterMap_append]
      congr 1
      simp [List.filterMap_cons, hf]
    rw [buildMergedContent, buildMergedContent, buildParts, buildParts, hmp]
  · intro h
    exact List.mem_filterMap.mpr
      ⟨cfg, List.mem_append_right _ (List.mem_cons_self _ _), if_neg h⟩

/-- Witness for C4 at concrete inputs: a duplicate is skipped, a new
section is appended. -/
theorem merge_dedup_witness :
    buildMergedContent "hello".data
        [⟨["CODEX.md".data], "Codex".data, " hello ".data, mergeStr⟩] [] =
      buildMergedContent "hello".data [] [] ∧
    mergeSection ⟨["CODEX.md".data], "Codex".data, "new".data, mergeStr⟩ ∈
      mergeParts "hello".data
        [⟨["CODEX.md".data], "Codex".data, "new".data, mergeStr⟩] :=
  ⟨(merge_dedup "hello".data [] [] [] _).1 (by decide),
   (merge_dedup "hello".data [] [] [] _).2 (by decide)⟩

/-- Starting tree of the end-to-end scenario: `CLAUDE.md` with content
`"A"` and `.cursorrules` with content `"B"`, no canonical file. -/
def fsAB : FS :=
  [ (["CLAUDE.md".data], .file "A".data),
    ([".cursorrules".data], .file "B".data) ]

/-- C5: with no existing canonical content, the merged output is seeded
from the first symlink-strategy config under a `# AGENTS.md` heading, every
other symlink-strategy config with different trimmed content is appended
under a provenance header, and in the end-to-end scenario the produced
canonical file contains both `"A"` and `"B"` and both originals become
symlinks to the canonical file. -/
theorem symlink_seeding (toMerge rest : List AgentConfig) (base : AgentConfig) :
    seedSection base ∈ buildParts [] toMerge (base :: rest) ∧
    (∀ cfg ∈ rest, trimSpace cfg.content ≠ trimSpace base.content →
      mergeSection cfg ∈ buildParts [] toMerge (base :: rest)) ∧
    (readFileFS (Run ⟨false, false, false⟩ ⟨true, []⟩ fsAB).fs agentsMDPath ≠ none ∧
     "A".data <:+:
       ((readFileFS (Run ⟨false, false, false⟩ ⟨true, []⟩ fsAB).fs agentsMDPath).getD []) ∧
     "B".data <:+:
       ((readFileFS (Run ⟨false, false, false⟩ ⟨true, []⟩ fsAB).fs agentsMDPath).getD []) ∧
     lookupFS (Run ⟨false, false, false⟩ ⟨true, []⟩ fsAB).fs ["CLAUDE.md".data] =
       some (.symlink agentsName) ∧
     lookupFS (Run ⟨false, false, false⟩ ⟨true, []⟩ fsAB).fs [".cursorrules".data] =
       some (.symlink agentsName)) := by
  refine ⟨?_, ?_, by decide⟩
  · exact List.mem_append_right _
      (by rw [symParts, if_pos rfl]; exact List.mem_cons_self _ _)
  · intro cfg hc hne
    exact List.mem_append_right _
      (by
        rw [symParts, if_pos rfl]
        exact List.mem_cons_of_mem _
          (List.mem_filterMap.mpr ⟨cfg, hc, if_neg hne⟩))

/-- Witness for C5 at concrete configs. -/
theorem symlink_seeding_witness :
    seedSection ⟨["CLAUDE.md".data], "Claude Code".data, "A".data, symlinkStr⟩ ∈
      buildParts [] []
        [⟨["CLAUDE.md".data], "Claude Code".data, "A".data, symlinkStr⟩,
         ⟨[".cursorrules".data], "Cursor (legacy)".data, "B".data, symlinkStr⟩] ∧
    mergeSection ⟨[".cursorrules".data], "Cursor (legacy)".data, "B".data, symlinkStr⟩ ∈
      buildParts [] []
        [⟨["CLAUDE.md".data], "Claude Code".data, "A".data, symlinkStr⟩,
         ⟨[".cursorrules".data], "Cursor (legacy)".data, "B".data, symlinkStr⟩] :=
  ⟨(symlink_seeding [] _ _).1,
   (symlink_seeding [] _ _).2.1 _ (by decide) (by decide)⟩

/-- C10: with a non-empty existing canonical content, the output of
`buildMergedContent` does not depend on the symlink-strategy configs at
all: their contents are incorporated only when no canonical file existed. -/
theorem merged_indep_symlinks (existing : Str) (toMerge s1 s2 : List AgentConfig)
    (h : existing ≠ []) :
    buildMergedContent existing toMerge s1 = buildMergedContent existing toMerge s2 := by
  have hsp : ∀ s : List AgentConfig, symParts existing s = [] := by
    intro s
    cases s with
    | nil => rfl
    | cons b r => rw [symParts, if_neg h]
  rw [buildMergedContent, buildMergedContent, buildParts, buildParts, hsp s1, hsp s2]

/-- Witness for C10: two trees differing only in the symlink-strategy
content produce identical canonical content. -/
theorem merged_indep_symlinks_witness :
    buildMergedContent "x".data []
        [⟨["CLAUDE.md".data], "Claude Code".data, "secret".data, symlinkStr⟩] =
      buildMergedContent "x".data []
        [⟨["CLAUDE.md".data], "Claude Code".data, "other".data, symlinkStr⟩] :=
  merged_indep_symlinks "x".data [] _ _ (by decide)

/-- C7: a root-level original links with the bare canonical filename, and
for every original path the created symlink target, resolved relative to
the symlink's own directory, is the canonical file at the root. -/
theorem symlink_target_resolves (p : Path) :
    (pathDir p = [] → createSymlinkTarget p = [agentsName]) ∧
    resolvePath (pathDir p) (createSymlinkTarget p) = [agentsName] := by
  constructor
  · intro h
    rw [createSymlinkTarget, if_pos h]
  · by_cases hd : pathDir p = []
    · rw [createSymlinkTarget, if_pos hd, hd]
      rw [resolvePath_no_dots [agentsName] [] (by decide)]
      rfl
    · rw [createSymlinkTarget, if_neg hd, filepathRel]
      set b2 := (dropCommon (pathDir p) [agentsName]).1 with hb2
      set t2 := (dropCommon (pathDir p) [agentsName]).2 with ht2
      have hdc : dropCommon (pathDir p) [agentsName] = (b2, t2) := by
        rw [hb2, ht2]
      obtain ⟨c, hb, ht⟩ := dropCommon_spec _ _ _ _ hdc
      have hnd : ∀ x ∈ t2, x ≠ dotdot := by
        intro x hx
        have hxin : x ∈ [agentsName] := by
          rw [ht]
          exact List.mem_append_right _ hx
        have hxa : x = agentsName := by simpa using hxin
        rw [hxa]
        decide
      rw [hb, resolvePath_app_dots b2 c t2, resolvePath_no_dots t2 c hnd]
      exact ht.symm

/-- Witness for C7: a file two directory levels deep gets the target
`../../AGENTS.md`, which resolves back to the canonical file, and a
root-level file links with the bare filename. -/
theorem symlink_target_resolves_witness :
    createSymlinkTarget ["CLAUDE.md".data] = [agentsName] ∧
    createSymlinkTarget ["a".data, "b".data, "CLAUDE.md".data] =
      ["..".data, "..".data, "AGENTS.md".data] ∧
    resolvePath (pathDir ["a".data, "b".data, "CLAUDE.md".data])
        (createSymlinkTarget ["a".data, "b".data, "CLAUDE.md".data]) = [agentsName] :=
  ⟨(symlink_target_resolves _).1 rfl, by decide, (symlink_target_resolves _).2⟩

/-- C2: dry-run mode is side-effect free: for every starting tree and every
git environment, a run with `DryRun` set leaves the tree unchanged and
performs no write, no removal and no symlink creation. -/
theorem dry_run_pure (opts : Options) (env : GitEnv) (fs : FS)
    (h : opts.dryRun = true) :
    (Run opts env fs).fs = fs ∧ (Run opts env fs).writes = [] ∧
    (Run opts env fs).removed = [] ∧ (Run opts env fs).symlinked = [] := by
  cases hg : (if opts.force then none else checkGitStatus env) with
  | some files =>
    rw [run_gate_some fs hg]
    exact ⟨rfl, rfl, rfl, rfl⟩
  | none =>
    rw [run_gate_none fs hg, runAfterGate]
    split_ifs with h1 h2
    · exact ⟨rfl, rfl, rfl, rfl⟩
    · exact ⟨rfl, rfl, rfl, rfl⟩
    · exact ⟨rfl, rfl, rfl, rfl⟩

/-- Witness for C2 at a concrete tree that would otherwise be mutated. -/
theorem dry_run_pure_witness :
    (Run ⟨true, false, false⟩ ⟨false, []⟩
        [(["CLAUDE.md".data], FSEntry.file "A".data)]).fs =
      [(["CLAUDE.md".data], FSEntry.file "A".data)] ∧
    (Run ⟨true, false, false⟩ ⟨false, []⟩
        [(["CLAUDE.md".data], FSEntry.file "A".data)]).writes = [] ∧
    (Run ⟨true, false, false⟩ ⟨false, []⟩
        [(["CLAUDE.md".data], FSEntry.file "A".data)]).removed = [] ∧
    (Run ⟨true, false, false⟩ ⟨false, []⟩
        [(["CLAUDE.md".data], FSEntry.file "A".data)]).symlinked = [] :=
  dry_run_pure _ _ _ rfl

/-- C3: without the override flag a gate failure aborts the run before any
mutation, with an error enumerating the (non-empty, all recognized)
affected files; with the override flag the gate is skipped entirely and the
run proceeds; outside a repository the check passes silently. -/
theorem git_gate (opts : Options) (env : GitEnv) (fs : FS) :
    (opts.force = false → ∀ files, checkGitStatus env = some files →
      Run opts env fs = ⟨.gitError files, fs, [], [], []⟩ ∧
      files ≠ [] ∧ ∀ f ∈ files, isAgentConfigFile f = true) ∧
    (opts.force = true → ∀ env2, Run opts env fs = Run opts env2 fs) ∧
    (opts.force = true → ∀ files, (Run opts env fs).status ≠ .gitError files) ∧
    (env.isRepo = false → checkGitStatus env = none) := by
  refine ⟨?_, ?_, ?_, checkGitStatus_not_repo⟩
  · intro hf files hg
    exact ⟨run_gate_some fs (by simp [hf, hg]), checkGitStatus_some hg⟩
  · intro hf env2
    rw [run_gate_none fs (by simp [hf]), run_gate_none fs (by simp [hf])]
  · intro hf files
    rw [run_gate_none fs (by simp [hf]), runAfterGate]
    split
    · simp
    · split
      · simp
      · split
        · simp
        · simp [applyChanges]

/-- Witness for C3: a dirty `CLAUDE.md` blocks a forceless run. -/
theorem git_gate_witness :
    Run ⟨false, false, false⟩ ⟨true, " M CLAUDE.md\n".data⟩ [] =
      ⟨.gitError ["CLAUDE.md".data], [], [], [], []⟩ :=
  ((git_gate ⟨false, false, false⟩ ⟨true, " M CLAUDE.md\n".data⟩ []).1 rfl
    ["CLAUDE.md".data] (by decide)).1

/-- C1: in apply mode, when the gate passes, the canonical file exists,
every glob match of every symlink-strategy pattern is already a symlink to
the canonical file, and the rebuilt merged content has the same hash as the
existing content, `Run` reports the in-sync outcome and performs no
mutation at all. -/
theorem run_in_sync (opts : Options) (env : GitEnv) (fs : FS) (c : Str)
    (hgate : opts.force = true ∨ checkGitStatus env = none)
    (hag : lookupFS fs agentsMDPath = some (.file c))
    (hsym : ∀ ap ∈ agentPatterns, ap.strategy = symlinkStr →
      ∀ pat ∈ ap.patterns, ∀ p ∈ glob fs pat, isSymlinkToAgentsMD fs p = true)
    (heq : hashContent (existingOf fs) = hashContent (mergedOf fs)) :
    Run opts env fs = ⟨.inSync, fs, [], [], []⟩ := by
  have hg : (if opts.force then none else checkGitStatus env) = none := by
    rcases hgate with h | h
    · simp [h]
    · cases hf : opts.force <;> simp [hf, h]
  have hns : isSymlinkToAgentsMD fs agentsMDPath = false := by
    unfold isSymlinkToAgentsMD
    rw [hag]
  have hrf : readFileFS fs agentsMDPath = some c := by
    unfold readFileFS
    rw [hag]
  have hmem : (⟨agentsMDPath, "OpenCode/AMP".data, c, keepStr⟩ : AgentConfig) ∈
      scanConfigs fs := by
    apply mem_scanConfigs_iff.mpr
    refine ⟨⟨"OpenCode/AMP".data, [["AGENTS.md".data]], keepStr⟩, by decide,
      ["AGENTS.md".data], by decide, agentsMDPath, ?_, ?_⟩
    · exact List.mem_filter.mpr ⟨lookupFS_mem hag, by decide⟩
    · rw [mkConfig, if_neg (by simp [hns]), hrf]
  have hne : scanConfigs fs ≠ [] := List.ne_nil_of_mem hmem
  have hts : toSymlinkOf fs = [] := toSymlinkOf_eq_nil hsym
  have hcnd : existingOf fs ≠ [] ∧
      hashContent (existingOf fs) = hashContent (mergedOf fs) ∧
      toSymlinkOf fs = [] := by
    refine ⟨?_, heq, hts⟩
    have hme : existingOf fs = mergedOf fs := heq
    rw [hme]
    exact buildMergedContent_ne_nil _ _ _
  rw [run_gate_none fs hg, runAfterGate, if_neg hne, if_pos hcnd]

/-- Witness for C1: a tree holding only a stable canonical file is
reported in sync with no mutation. -/
theorem run_in_sync_witness :
    Run ⟨false, false, false⟩ ⟨false, []⟩
        [(["AGENTS.md".data], FSEntry.file "# AGENTS.md\n\nhello\n".data)] =
      ⟨.inSync, [(["AGENTS.md".data], FSEntry.file "# AGENTS.md\n\nhello\n".data)],
        [], [], []⟩ :=
  run_in_sync _ _ _ _ (Or.inr (by decide)) rfl (by decide) (by decide)

/-- C9: the already-synced check matches by basename only: any symlink
whose target is exactly `AGENTS.md` or has basename `AGENTS.md` — even one
resolving to a different directory — is recognized, excluded from
scanning, and never removed or re-symlinked by a run. -/
theorem symlink_basename (fs : FS) (p : Path) :
    (∀ t, lookupFS fs p = some (.symlink t) →
      (t = agentsName ∨ stringBase t = agentsName) →
      isSymlinkToAgentsMD fs p = true) ∧
    (isSymlinkToAgentsMD fs p = true → ∀ cfg ∈ scanConfigs fs, cfg.path ≠ p) ∧
    (isSymlinkToAgentsMD fs p = true → ∀ opts env,
      p ∉ (Run opts env fs).removed ∧ p ∉ (Run opts env fs).symlinked) := by
  have hscan : isSymlinkToAgentsMD fs p = true →
      ∀ cfg ∈ scanConfigs fs, cfg.path ≠ p := by
    intro h cfg hc heqp
    obtain ⟨ap, hap, pat, hpat, q, hq, hmk⟩ := mem_scanConfigs_iff.mp hc
    obtain ⟨hpath, _, _, hns, _⟩ := mkConfig_some hmk
    have hqp : q = p := by rw [← hpath, heqp]
    rw [hqp, h] at hns
    simp at hns
  refine ⟨?_, hscan, ?_⟩
  · intro t ht hor
    unfold isSymlinkToAgentsMD
    rw [ht]
    simpa using hor
  · intro h opts env
    have hsub : ∀ x ∈ (toSymlinkOf fs).map (fun cfg => cfg.path), x ≠ p := by
      intro x hx
      obtain ⟨cfg, hcfg, hxe⟩ := List.mem_map.mp hx
      obtain ⟨hmemscan, _, _⟩ := mem_toSymlinkOf hcfg
      intro hxp
      exact (hscan h cfg hmemscan) (hxe.trans hxp)
    cases hg : (if opts.force then none else checkGitStatus env) with
    | some files =>
      rw [run_gate_some fs hg]
      exact ⟨by simp, by simp⟩
    | none =>
      rw [run_gate_none fs hg, runAfterGate]
      split
      · exact ⟨by simp, by simp⟩
      · split
        · exact ⟨by simp, by simp⟩
        · split
          · exact ⟨by simp, by simp⟩
          · constructor
            · intro hx
              have hxm : p ∈ (toSymlinkOf fs).map (fun cfg => cfg.path) := by
                have hrm : (applyChanges fs).removed =
                    (toSymlinkOf fs).map (fun cfg => cfg.path) := by
                  simp [applyChanges, applySymlinks_removed]
                rwa [hrm] at hx
              exact hsub p hxm rfl
            · intro hx
              have hxm : p ∈ (toSymlinkOf fs).map (fun cfg => cfg.path) := by
                have hcr : (applyChanges fs).symlinked =
                    (toSymlinkOf fs).map (fun cfg => cfg.path) := by
                  simp [applyChanges, applySymlinks_created]
                rwa [hcr] at hx
              exact hsub p hxm rfl

/-- Witness for C9: a symlink to `../elsewhere/AGENTS.md` is recognized
and left untouched by an apply run. -/
theorem symlink_basename_witness :
    isSymlinkToAgentsMD
        [(["CLAUDE.md".data], FSEntry.symlink "../elsewhere/AGENTS.md".data)]
        ["CLAUDE.md".data] = true ∧
    (["CLAUDE.md".data] ∉ (Run ⟨false, true, false⟩ ⟨false, []⟩
        [(["CLAUDE.md".data], FSEntry.symlink "../elsewhere/AGENTS.md".data)]).removed ∧
     ["CLAUDE.md".data] ∉ (Run ⟨false, true, false⟩ ⟨false, []⟩
        [(["CLAUDE.md".data], FSEntry.symlink "../elsewhere/AGENTS.md".data)]).symlinked) :=
  ⟨(symlink_basename _ _).1 _ rfl (Or.inr (by decide)),
   (symlink_basename _ _).2.2 (by decide) _ _⟩

end Cirby


